import Mathlib

/-!
Verification of the debugger front-end core of this repository: the output
grouping engine, the variable tree manager and the evaluation coordinator,
together with the debug request configuration helpers from
crates/task/src/debug_format.rs.

The crate sources under crates/debugger_ui contain only the integration
tests (tests/console.rs); the engine implementations themselves are not in
the inspected tree, so those components are modelled from the specification
and checked against the concrete behaviour the tests pin down.
-/

namespace ZedDebugger

/-- Group marker carried by an output event, mirroring
dap::OutputEventGroup (Start, StartCollapsed, End). -/
inductive OutputEventGroup where
  | Start
  | StartCollapsed
  | End
deriving DecidableEq, Repr

/-- Output notification, mirroring the fields of dap::OutputEvent used by
the console: the text, an optional group marker and an opaque category. -/
structure OutputEvent where
  output : String
  group : Option OutputEventGroup
  category : Option String
deriving DecidableEq, Repr

/-- Frame of the group stack: collapsed is true when the group was opened
with StartCollapsed, suppressed is true when this frame or any ancestor is
collapsed. -/
structure GroupFrame where
  collapsed : Bool
  suppressed : Bool
deriving DecidableEq, Repr

/-- One rendered console line: text, indentation depth and whether the line
carries the hidden-content indicator. -/
structure TranscriptLine where
  text : String
  depth : Nat
  hidden_marker : Bool
deriving DecidableEq, Repr

/-- Non-fatal error conditions of the core (section 7 of the spec). -/
inductive CoreError where
  | malformedGroupSequence
  | unresolvedPatchTarget
deriving DecidableEq, Repr

/-- State of the output grouping engine: the stack of open groups (head is
the innermost group), the append-only transcript and the log of non-fatal
errors. -/
structure ConsoleState where
  stack : List GroupFrame
  transcript : List TranscriptLine
  errors : List CoreError
deriving DecidableEq, Repr

/-- Suppression flag of the innermost open group, false when no group is
open. -/
def topSuppressed : List GroupFrame → Bool
  | [] => false
  | f :: _ => f.suppressed

/-- Modelled from the spec: operation handle_output of the output grouping
engine (spec section 4.1), whose implementation in
crates/debugger_ui/src/console.rs is not part of the inspected sources.
Start appends a line unless suppressed and pushes a frame; StartCollapsed
pushes a collapsed, suppressed frame without appending; End on an empty
stack logs MalformedGroupSequence and drops the event, otherwise pops and
appends the closing line at the post-pop depth with the hidden marker set
to the collapsed flag of the popped frame; a plain line is dropped when the
top frame is suppressed and otherwise appended at the current stack
depth. -/
def handle_output (s : ConsoleState) (n : OutputEvent) : ConsoleState :=
  match n.group with
  | some .Start =>
    let sup := topSuppressed s.stack
    let s1 :=
      if sup then s
      else { s with transcript := s.transcript ++ [⟨n.output, s.stack.length, false⟩] }
    { s1 with stack := ⟨false, sup⟩ :: s1.stack }
  | some .StartCollapsed =>
    { s with stack := ⟨true, true⟩ :: s.stack }
  | some .End =>
    match s.stack with
    | [] => { s with errors := s.errors ++ [.malformedGroupSequence] }
    | f :: rest =>
      { s with
        stack := rest
        transcript := s.transcript ++ [⟨n.output, rest.length, f.collapsed⟩] }
  | none =>
    if topSuppressed s.stack then s
    else { s with transcript := s.transcript ++ [⟨n.output, s.stack.length, false⟩] }

/-- Initial console state: no open groups, empty transcript. -/
def ConsoleState.initial : ConsoleState := ⟨[], [], []⟩

/-- Processing a whole sequence of output notifications in arrival order. -/
def runOutput (s : ConsoleState) (events : List OutputEvent) : ConsoleState :=
  events.foldl handle_output s

/-- Well-formedness of the group stack: every frame records in its
suppressed flag whether that frame or any ancestor is collapsed (spec
section 3, GroupFrame). -/
def stackWF : List GroupFrame → Prop
  | [] => True
  | f :: rest => f.suppressed = (f :: rest).any (·.collapsed) ∧ stackWF rest

instance : DecidablePred stackWF := by
  intro l
  induction l with
  | nil => exact .isTrue trivial
  | cons f rest ih => exact @instDecidableAnd _ _ _ ih

/-- Event sequence of spec section 8, property 6: a plain line, a Start
group with two items, a nested Start group closed by End, a StartCollapsed
group with one hidden line closed by End, a trailing plain line and a final
End. -/
def groupedScenarioEvents : List OutputEvent :=
  [ ⟨"First line", none, none⟩,
    ⟨"First group", some .Start, none⟩,
    ⟨"item1", none, none⟩,
    ⟨"item2", none, none⟩,
    ⟨"Second group", some .Start, none⟩,
    ⟨"x", none, none⟩,
    ⟨"End group2", some .End, none⟩,
    ⟨"Third group", some .StartCollapsed, none⟩,
    ⟨"hidden1", none, none⟩,
    ⟨"End group3", some .End, none⟩,
    ⟨"tail", none, none⟩,
    ⟨"closer", some .End, none⟩ ]

/-- Transcript the spec shows for that sequence: plain lines at their group
depth, the collapsed group content absent, its End line carrying the hidden
indicator, the final End line at depth 0. -/
def groupedScenarioTranscript : List TranscriptLine :=
  [ ⟨"First line", 0, false⟩,
    ⟨"First group", 0, false⟩,
    ⟨"item1", 1, false⟩,
    ⟨"item2", 1, false⟩,
    ⟨"Second group", 1, false⟩,
    ⟨"x", 2, false⟩,
    ⟨"End group2", 1, false⟩,
    ⟨"End group3", 1, true⟩,
    ⟨"tail", 1, false⟩,
    ⟨"closer", 0, false⟩ ]

/-- Scope of a stack frame, mirroring the dap::Scope fields the variable
list uses: name, container reference and the expensive flag. -/
structure Scope where
  name : String
  variables_reference : Nat
  expensive : Bool
deriving DecidableEq, Repr

/-- Variable, mirroring the dap::Variable fields the variable list uses:
name, rendered value and container reference (0 means leaf). -/
structure Variable where
  name : String
  value : String
  variables_reference : Nat
deriving DecidableEq, Repr

/-- Identity of one expandable row of the variable list, mirroring the
OpenEntry values built in tests/console.rs: a scope row is keyed by its
name, a variable row by the owning scope container id, the variable name
and the depth. -/
inductive OpenEntry where
  | ScopeRow (name : String)
  | VariableRow (scope_id : Nat) (name : String) (depth : Nat)
deriving DecidableEq, Repr

/-- Reference cache: container id mapped to the previously fetched child
list. -/
abbrev Cache : Type := List (Nat × List Variable)

/-- Lookup of a container id in the reference cache. -/
def lookupCache : Cache → Nat → Option (List Variable)
  | [], _ => none
  | (k, vs) :: rest, r => if k = r then some vs else lookupCache rest r

/-- Insertion (or replacement) of a container id in the reference cache. -/
def insertCache : Cache → Nat → List Variable → Cache
  | [], r, vars => [(r, vars)]
  | (k, vs) :: rest, r, vars =>
    if k = r then (r, vars) :: rest else (k, vs) :: insertCache rest r vars

/-- Entry of the flattened variable tree view (spec section 3,
VariableTreeEntry): a scope row or a variable row annotated with the
container of its parent, its depth and whether it can be expanded. -/
inductive VariableTreeEntry where
  | ScopeEntry (scope : Scope)
  | VariableEntry (var : Variable) (container_ref_of_parent : Nat)
      (depth : Nat) (has_children : Bool)
deriving DecidableEq, Repr

/-- Modelled from the spec and tests/console.rs: the depth-first walk below
one variable row. The row itself is always emitted, with has_children
exactly when its container reference is non-zero; its cached children are
walked at depth + 1 only when the row is in the expanded set and its
children are present in the cache. The walk is structural in a fuel
argument; callers pass one more than the cache size, which covers every
chain of distinct cached containers, and adapter container ids are fresh
per fetch, so no id repeats along a path. -/
def walkVars (fuel : Nat) (expanded : List OpenEntry) (scope_id : Nat)
    (cache : Cache) (parent_ref : Nat) (depth : Nat) (v : Variable) :
    List VariableTreeEntry :=
  match fuel with
  | 0 => [VariableTreeEntry.VariableEntry v parent_ref depth (v.variables_reference != 0)]
  | fuel + 1 =>
    VariableTreeEntry.VariableEntry v parent_ref depth (v.variables_reference != 0) ::
      (match lookupCache cache v.variables_reference with
       | none => []
       | some kids =>
         if OpenEntry.VariableRow scope_id v.name depth ∈ expanded then
           kids.flatMap
             (fun k => walkVars fuel expanded scope_id cache
               v.variables_reference (depth + 1) k)
         else [])

/-- Modelled from tests/console.rs (test_evaluate_expression, the visual
entries assertion): a scope emits its row and then its cached children, the
latter only when the scope row is in the expanded set. Note the divergence
from the spec words, which claim scopes always emit their cached
children. -/
def scopeEntries (expanded : List OpenEntry) (cache : Cache) (scope : Scope) :
    List VariableTreeEntry :=
  VariableTreeEntry.ScopeEntry scope ::
    (if OpenEntry.ScopeRow scope.name ∈ expanded then
      ((lookupCache cache scope.variables_reference).getD []).flatMap
        (fun v => walkVars (cache.length + 1) expanded scope.variables_reference
          cache scope.variables_reference 1 v)
     else [])

/-- Flattened variable tree of one frame: every scope block in order. -/
def entries (scopes : List Scope) (expanded : List OpenEntry) (cache : Cache) :
    List VariableTreeEntry :=
  scopes.flatMap (scopeEntries expanded cache)

/-- Modelled from the spec (section 4.2, operation entries, word for word):
the same walk, except that a scope always emits its cached children,
needing no entry in the expanded set. Kept separate so it can be compared
against the behaviour the tests pin down. -/
def scopeEntriesSpec (expanded : List OpenEntry) (cache : Cache) (scope : Scope) :
    List VariableTreeEntry :=
  VariableTreeEntry.ScopeEntry scope ::
    ((lookupCache cache scope.variables_reference).getD []).flatMap
      (fun v => walkVars (cache.length + 1) expanded scope.variables_reference
        cache scope.variables_reference 1 v)

/-- Flattened variable tree under the literal spec words on scopes. -/
def entriesSpec (scopes : List Scope) (expanded : List OpenEntry) (cache : Cache) :
    List VariableTreeEntry :=
  scopes.flatMap (scopeEntriesSpec expanded cache)

/-- Lookup of the first variable of a list with a given name. -/
def findVar : List Variable → String → Option Variable
  | [], _ => none
  | v :: rest, name => if v.name = name then some v else findVar rest name

/-- Per-frame state of the variable list: scope list, expansion set and
reference cache (spec section 4.2). -/
structure FrameData where
  scopes : List Scope
  expanded : List OpenEntry
  cache : Cache
deriving DecidableEq, Repr

/-- A Variables request issued by the variable list, tagged with the
generation it belongs to. -/
structure VarRequest where
  generation : Nat
  thread_id : Nat
  frame_id : Nat
  container_ref : Nat
deriving DecidableEq, Repr

/-- State of the variable tree manager: the stopped-state generation
counter, the per (thread, frame) data and the append-only log of issued
Variables requests. -/
structure VariableListState where
  generation : Nat
  frames : List ((Nat × Nat) × FrameData)
  varRequests : List VarRequest
deriving DecidableEq, Repr

/-- Lookup of a (thread, frame) key in the frame map. -/
def lookupFrames : List ((Nat × Nat) × FrameData) → Nat × Nat → Option FrameData
  | [], _ => none
  | (k, fd) :: rest, key => if k = key then some fd else lookupFrames rest key

/-- Pointwise update of one (thread, frame) entry of the frame map. -/
def updateFrames : List ((Nat × Nat) × FrameData) → Nat × Nat →
    (FrameData → FrameData) → List ((Nat × Nat) × FrameData)
  | [], _, _ => []
  | (k, fd) :: rest, key, f =>
    if k = key then (k, f fd) :: rest else (k, fd) :: updateFrames rest key f

/-- Modelled from the spec: operation on_stopped of the variable tree
manager (spec section 4.2), whose implementation is not part of the
inspected sources. All cached per-frame state of the session is discarded
and the stopped-state generation is advanced; the request log is history
and is kept. -/
def on_stopped (s : VariableListState) (_thread_id : Nat) : VariableListState :=
  { generation := s.generation + 1, frames := [], varRequests := s.varRequests }

/-- Modelled from the spec: arrival of a Scopes response tagged with the
generation of the request that produced it. A response of a superseded
generation is discarded. A live response stores the scope list with the
first scope expanded by default (the behaviour tests/console.rs pins down)
and eagerly issues one Variables request per scope. -/
def applyScopesResponse (s : VariableListState) (gen thread_id frame_id : Nat)
    (scopes : List Scope) : VariableListState :=
  if gen = s.generation then
    { s with
      frames := ((thread_id, frame_id),
        ⟨scopes,
         match scopes with
         | [] => []
         | sc :: _ => [OpenEntry.ScopeRow sc.name],
         []⟩) :: s.frames
      varRequests := s.varRequests ++
        scopes.map (fun sc => ⟨s.generation, thread_id, frame_id, sc.variables_reference⟩) }
  else s

/-- Modelled from the spec: arrival of a Variables response tagged with the
generation of the request that produced it. A response of a superseded
generation is discarded; a live one is inserted into the cache of its
frame. -/
def applyVariablesResponse (s : VariableListState) (gen thread_id frame_id ref : Nat)
    (vars : List Variable) : VariableListState :=
  if gen = s.generation then
    { s with
      frames := updateFrames s.frames (thread_id, frame_id)
        (fun d => { d with cache := insertCache d.cache ref vars }) }
  else s

/-- Modelled from the spec: operation toggle_entry (spec section 4.2).
Collapsing removes the key from the expanded set and keeps the cached data;
expanding adds the key and issues a Variables request only when the row has
no cached children. -/
def toggle_entry (s : VariableListState) (thread_id frame_id : Nat)
    (entry : OpenEntry) (ref : Nat) : VariableListState :=
  match lookupFrames s.frames (thread_id, frame_id) with
  | none => s
  | some fd =>
    if entry ∈ fd.expanded then
      { s with
        frames := updateFrames s.frames (thread_id, frame_id)
          (fun d => { d with expanded := d.expanded.erase entry }) }
    else
      match lookupCache fd.cache ref with
      | some _ =>
        { s with
          frames := updateFrames s.frames (thread_id, frame_id)
            (fun d => { d with expanded := entry :: d.expanded }) }
      | none =>
        { s with
          frames := updateFrames s.frames (thread_id, frame_id)
            (fun d => { d with expanded := entry :: d.expanded })
          varRequests := s.varRequests ++ [⟨s.generation, thread_id, frame_id, ref⟩] }

/-- Overwriting, in place, the value of the first variable of a list whose
name matches. -/
def patchVars : List Variable → String → String → List Variable
  | [], _, _ => []
  | v :: rest, name, newVal =>
    if v.name = name then { v with value := newVal } :: rest
    else v :: patchVars rest name newVal

/-- Overwriting one variable value inside one cached container. -/
def patchCache : Cache → Nat → String → String → Cache
  | [], _, _, _ => []
  | (k, vs) :: rest, ref, name, newVal =>
    if k = ref then (k, patchVars vs name newVal) :: rest
    else (k, vs) :: patchCache rest ref name newVal

/-- Modelled from the spec: patch_variable (spec section 4.2) applied to
one frame; walks the cached children of the given container and overwrites
the value of the entry with the given name. -/
def patch_variable (s : VariableListState) (thread_id frame_id ref : Nat)
    (name newVal : String) : VariableListState :=
  { s with
    frames := updateFrames s.frames (thread_id, frame_id)
      (fun d => { d with cache := patchCache d.cache ref name newVal }) }

/-- Container of the topmost scope of the frame whose cached children hold
a variable with the given name; first match wins (spec section 4.3). -/
def findTargetScope (scopes : List Scope) (cache : Cache) (name : String) : Option Nat :=
  match scopes with
  | [] => none
  | sc :: rest =>
    if ((lookupCache cache sc.variables_reference).getD []).any
        (fun v => v.name == name)
    then some sc.variables_reference
    else findTargetScope rest cache name

/-- Character class of the identifier following the dollar sign of an
assignment expression. -/
def isIdentChar (c : Char) : Bool := c.isAlphanum || c == '_'

/-- Modelled from the spec: the purely lexical assignment form of an
evaluate expression (spec section 4.3) — a leading dollar sign, an
identifier and an equals sign; returns the name and the right-hand side. -/
def parseAssignment (expr : String) : Option (String × String) :=
  match expr.toList with
  | '$' :: rest =>
    let name := rest.takeWhile isIdentChar
    let after := (rest.drop name.length).dropWhile (fun c => c == ' ')
    match name, after with
    | [], _ => none
    | _, '=' :: tail =>
      some (String.mk name, String.mk (tail.dropWhile (fun c => c == ' ')))
    | _, _ => none
  | _ => none

/-- Evaluate request issued to the adapter: expression, frame and
context. -/
structure EvaluateRequest where
  expression : String
  frame_id : Nat
  context : String
deriving DecidableEq, Repr

/-- Modelled from the spec: the evaluation coordinator (spec section 4.3)
on a successful response. The request context is "variables" for the
assignment form and "repl" otherwise; an assignment patches the first
matching cached variable of the topmost matching scope in place; in every
case exactly one TranscriptLine with the result text is appended, and no
Variables request is issued. The adapter result text is passed in as an
argument, the transport being out of scope. -/
def evaluate (con : ConsoleState) (vls : VariableListState)
    (thread_id frame_id : Nat) (expression result : String) :
    ConsoleState × VariableListState × EvaluateRequest :=
  match parseAssignment expression with
  | some (name, _rest) =>
    let vls2 :=
      match lookupFrames vls.frames (thread_id, frame_id) with
      | none => vls
      | some fd =>
        match findTargetScope fd.scopes fd.cache name with
        | none => vls
        | some ref => patch_variable vls thread_id frame_id ref name result
    ({ con with transcript := con.transcript ++ [⟨result, 0, false⟩] },
     vls2, ⟨expression, frame_id, "variables"⟩)
  | none =>
    ({ con with transcript := con.transcript ++ [⟨result, 0, false⟩] },
     vls, ⟨expression, frame_id, "repl"⟩)

/-- Typed event delivered by the debug session, one at a time, in arrival
order (spec section 6). -/
inductive DapEvent where
  | Output (n : OutputEvent)
  | Stopped (thread_id : Nat)
  | Continued (thread_id : Nat)
  | Terminated
deriving DecidableEq, Repr

/-- Whole core state driven by the session event stream. -/
structure SessionState where
  console : ConsoleState
  variableList : VariableListState
  terminated : Bool
deriving DecidableEq, Repr

/-- Modelled from the spec: the single delivery point of the core (spec
sections 5 and 6). Output events go to the grouping engine,
Stopped and Continued invalidate the variable list, Terminated stops all
further mutation. -/
def sessionStep (s : SessionState) : DapEvent → SessionState
  | .Output n => if s.terminated then s else { s with console := handle_output s.console n }
  | .Stopped tid =>
    if s.terminated then s else { s with variableList := on_stopped s.variableList tid }
  | .Continued tid =>
    if s.terminated then s else { s with variableList := on_stopped s.variableList tid }
  | .Terminated => { s with terminated := true }

/-- Scope list of the test fixture of test_evaluate_expression
(tests/console.rs): two scopes with containers 2 and 4. -/
def testScopes : List Scope := [⟨"Scope 1", 2, false⟩, ⟨"Scope 2", 4, false⟩]

/-- Nested children of variable1 in the test fixture. -/
def nested1 : Variable := ⟨"nested1", "Nested 1", 0⟩

/-- Second nested child of variable1 in the test fixture. -/
def nested2 : Variable := ⟨"nested2", "Nested 2", 0⟩

/-- Expandable variable of scope 1 in the test fixture, container 3. -/
def variable1 : Variable := ⟨"variable1", "Object", 3⟩

/-- Leaf variable of scope 1 in the test fixture. -/
def variable2 : Variable := ⟨"variable2", "Value 2", 0⟩

/-- Leaf variable of scope 2 in the test fixture. -/
def variable3 : Variable := ⟨"variable3", "Value 3", 0⟩

/-- Cache of the test fixture after all three Variables fetches. -/
def testCache : Cache :=
  [(2, [variable1, variable2]), (3, [nested1, nested2]), (4, [variable3])]

/-- Expanded rows of the test fixture at the final assertion: the first
scope (expanded by default) and the variable1 row the test toggled. -/
def testExpanded : List OpenEntry :=
  [.ScopeRow "Scope 1", .VariableRow 2 "variable1" 1]

/-- Visual entries test_evaluate_expression asserts (tests/console.rs,
the entries assertion): scope 1 with its subtree, variable1 expanded with
both nested children, then scope 2 with no children shown. -/
def testObservedEntries : List VariableTreeEntry :=
  [ .ScopeEntry ⟨"Scope 1", 2, false⟩,
    .VariableEntry variable1 2 1 true,
    .VariableEntry nested1 3 2 false,
    .VariableEntry nested2 3 2 false,
    .VariableEntry variable2 2 1 false,
    .ScopeEntry ⟨"Scope 2", 4, false⟩ ]

/-- Variable list state of the test fixture for thread 1, frame 1. -/
def testVariableListState : VariableListState :=
  ⟨1, [((1, 1), ⟨testScopes, testExpanded, testCache⟩)], []⟩

end ZedDebugger

namespace ZedTask

/-- Attach request information (crates/task/src/debug_format.rs,
struct AttachConfig): the optional process id to attach to. -/
structure AttachConfig where
  process_id : Option Nat
deriving DecidableEq, Repr

/-- Request type sent to the debug adapter (crates/task/src/debug_format.rs,
enum DebugRequestType). -/
inductive DebugRequestType where
  | Launch
  | Attach (config : AttachConfig)
deriving DecidableEq, Repr

/-- Embedding of DebugRequestType::attach_config: returns the AttachConfig
of the Attach variant and None otherwise. -/
def DebugRequestType.attach_config : DebugRequestType → Option AttachConfig
  | .Attach config => some config
  | _ => none

end ZedTask

namespace ZedDebugger

/-- Changing only the error log of a console state changes neither the
stack nor the transcript produced by handle_output. -/
theorem handle_output_errors_independent (s : ConsoleState) (e : List CoreError)
    (n : OutputEvent) :
    (handle_output { s with errors := e } n).stack = (handle_output s n).stack ∧
    (handle_output { s with errors := e } n).transcript = (handle_output s n).transcript := by
  cases s with
  | mk stack transcript errors =>
    unfold handle_output
    rcases n with ⟨text, g, cat⟩
    match g with
    | none =>
      cases stack with
      | nil => simp [topSuppressed]
      | cons f rest => by_cases hf : f.suppressed <;> simp [topSuppressed, hf]
    | some .Start =>
      cases stack with
      | nil => simp [topSuppressed]
      | cons f rest => by_cases hf : f.suppressed <;> simp [topSuppressed, hf]
    | some .StartCollapsed => simp
    | some .End =>
      cases stack with
      | nil => simp
      | cons f rest => simp

/-- A plain notification never changes the group stack. -/
theorem handle_output_stack_plain (s : ConsoleState) (n : OutputEvent)
    (h : n.group = none) : (handle_output s n).stack = s.stack := by
  unfold handle_output
  rw [h]
  by_cases hs : topSuppressed s.stack <;> simp [hs]

/-- Start pushes a non-collapsed frame inheriting the current suppression
flag. -/
theorem handle_output_stack_start (s : ConsoleState) (n : OutputEvent)
    (h : n.group = some .Start) :
    (handle_output s n).stack = ⟨false, topSuppressed s.stack⟩ :: s.stack := by
  unfold handle_output
  rw [h]
  by_cases hs : topSuppressed s.stack <;> simp [hs]

/-- StartCollapsed pushes a collapsed, suppressed frame. -/
theorem handle_output_stack_startCollapsed (s : ConsoleState) (n : OutputEvent)
    (h : n.group = some .StartCollapsed) :
    (handle_output s n).stack = ⟨true, true⟩ :: s.stack := by
  unfold handle_output
  rw [h]

/-- End on a non-empty stack pops the top frame. -/
theorem handle_output_stack_end_cons (s : ConsoleState) (n : OutputEvent)
    (f : GroupFrame) (rest : List GroupFrame)
    (h : n.group = some .End) (hs : s.stack = f :: rest) :
    (handle_output s n).stack = rest := by
  unfold handle_output
  rw [h, hs]

/-- End on an empty stack leaves the stack empty. -/
theorem handle_output_stack_end_nil (s : ConsoleState) (n : OutputEvent)
    (h : n.group = some .End) (hs : s.stack = []) :
    (handle_output s n).stack = [] := by
  unfold handle_output
  rw [h, hs]

/-- Well-formedness of the group stack is preserved by every
handle_output step. -/
theorem stackWF_handle_output (s : ConsoleState) (n : OutputEvent)
    (hwf : stackWF s.stack) : stackWF (handle_output s n).stack := by
  match hg : n.group with
  | none =>
    rw [handle_output_stack_plain s n hg]
    exact hwf
  | some .Start =>
    rw [handle_output_stack_start s n hg]
    refine ⟨?_, hwf⟩
    cases hs : s.stack with
    | nil => simp [topSuppressed]
    | cons f rest =>
      have h1 : f.suppressed = (f :: rest).any (·.collapsed) := (hs ▸ hwf).1
      simp [topSuppressed, List.any_cons] at h1 ⊢
      exact h1
  | some .StartCollapsed =>
    rw [handle_output_stack_startCollapsed s n hg]
    exact ⟨by simp [List.any_cons], hwf⟩
  | some .End =>
    cases hs : s.stack with
    | nil =>
      rw [handle_output_stack_end_nil s n hg hs]
      trivial
    | cons f rest =>
      rw [handle_output_stack_end_cons s n f rest hg hs]
      exact (hs ▸ hwf).2

/-- The empty stack of the initial console state is well formed. -/
theorem stackWF_initial : stackWF ConsoleState.initial.stack := trivial

/-- C1: on the exact twelve-event sequence of spec section 8 property 6,
handle_output (folded over the events from the initial state) produces
exactly the transcript the spec shows, closes every group (empty final
stack) and reports no malformed-sequence error. -/
theorem grouped_output_scenario :
    runOutput ConsoleState.initial groupedScenarioEvents =
      ⟨[], groupedScenarioTranscript, []⟩ := by
  decide

/-- C4: a plain output notification (no group marker) is dropped entirely
when the top stack frame is suppressed — in particular, on a well-formed
stack, whenever any ancestor group is collapsed — and otherwise appends a
single TranscriptLine at depth equal to the current stack length. -/
theorem handle_output_plain_line (s : ConsoleState) (n : OutputEvent)
    (hm : n.group = none) (hwf : stackWF s.stack) :
    (topSuppressed s.stack = true → handle_output s n = s) ∧
    (topSuppressed s.stack = false →
      handle_output s n =
        { s with transcript := s.transcript ++ [⟨n.output, s.stack.length, false⟩] }) ∧
    (s.stack.any (·.collapsed) = true → handle_output s n = s) := by
  have hsup : topSuppressed s.stack = s.stack.any (·.collapsed) := by
    cases hs : s.stack with
    | nil => simp [topSuppressed]
    | cons f rest => simpa [topSuppressed] using (hs ▸ hwf).1
  refine ⟨fun h => ?_, fun h => ?_, fun h => ?_⟩
  · unfold handle_output
    simp [hm, h]
  · unfold handle_output
    simp [hm, h]
  · unfold handle_output
    simp [hm, hsup, h]

/-- Concrete instances of the plain-line rule: a line arriving inside a
non-collapsed group nested in a collapsed group is dropped (ancestor
collapse dominates), and a line arriving inside a plain open group is
appended at depth 1. -/
theorem handle_output_plain_line_witness :
    handle_output ⟨[⟨false, true⟩, ⟨true, true⟩], [], []⟩ ⟨"hidden1", none, none⟩
        = ⟨[⟨false, true⟩, ⟨true, true⟩], [], []⟩ ∧
    handle_output ⟨[⟨false, false⟩], [], []⟩ ⟨"tail", none, none⟩
        = ⟨[⟨false, false⟩], [⟨"tail", 1, false⟩], []⟩ :=
  ⟨(handle_output_plain_line ⟨[⟨false, true⟩, ⟨true, true⟩], [], []⟩
      ⟨"hidden1", none, none⟩ rfl (by decide)).1 (by decide),
   by
    have h := (handle_output_plain_line ⟨[⟨false, false⟩], [], []⟩
      ⟨"tail", none, none⟩ rfl (by decide)).2.1 (by decide)
    simpa using h⟩

/-- C5: an End notification on a non-empty stack pops the top frame and
appends one TranscriptLine at the post-pop depth whose hidden marker equals
the popped frame's collapsed flag; in particular StartCollapsed followed
immediately by End yields exactly one line — the End line — with the hidden
indicator set, and restores the stack. -/
theorem handle_output_end_pop (s s2 : ConsoleState) (n m k : OutputEvent)
    (f : GroupFrame) (rest : List GroupFrame)
    (hm : n.group = some .End) (hs : s.stack = f :: rest)
    (hm2 : m.group = some .StartCollapsed) (hk : k.group = some .End) :
    handle_output s n =
      { s with stack := rest,
               transcript := s.transcript ++ [⟨n.output, rest.length, f.collapsed⟩] } ∧
    (runOutput s2 [m, k]).transcript =
      s2.transcript ++ [⟨k.output, s2.stack.length, true⟩] ∧
    (runOutput s2 [m, k]).stack = s2.stack := by
  refine ⟨?_, ?_, ?_⟩
  · unfold handle_output
    simp [hm, hs]
  · simp [runOutput, handle_output, hm2, hk]
  · simp [runOutput, handle_output, hm2, hk]

/-- Concrete instance: from the initial state, a collapsed group opened and
immediately closed produces exactly the closing line, at depth 0, with the
hidden indicator. -/
theorem handle_output_end_pop_witness :
    (runOutput ConsoleState.initial
        [⟨"Third group", some .StartCollapsed, none⟩, ⟨"End group3", some .End, none⟩]).transcript
      = [⟨"End group3", 0, true⟩] := by
  have h := (handle_output_end_pop ⟨[⟨true, true⟩], [], []⟩ ConsoleState.initial
    ⟨"End group3", some .End, none⟩ ⟨"Third group", some .StartCollapsed, none⟩
    ⟨"End group3", some .End, none⟩ ⟨true, true⟩ [] rfl rfl rfl rfl).2.1
  simpa [ConsoleState.initial] using h

/-- C9: an End notification on an empty stack logs MalformedGroupSequence
and is otherwise dropped — the transcript and the stack are unchanged — and
a subsequent notification is processed exactly as it would have been before
the malformed event (no crash, no state corruption). -/
theorem handle_output_end_empty (s : ConsoleState) (n n2 : OutputEvent)
    (hm : n.group = some .End) (hs : s.stack = []) :
    handle_output s n = { s with errors := s.errors ++ [.malformedGroupSequence] } ∧
    (handle_output s n).transcript = s.transcript ∧
    (handle_output s n).stack = s.stack ∧
    (handle_output (handle_output s n) n2).stack = (handle_output s n2).stack ∧
    (handle_output (handle_output s n) n2).transcript =
      (handle_output s n2).transcript := by
  have hstep : handle_output s n = { s with errors := s.errors ++ [.malformedGroupSequence] } := by
    unfold handle_output
    simp [hm, hs]
  refine ⟨hstep, by rw [hstep], by rw [hstep], ?_, ?_⟩
  · rw [hstep]
    exact (handle_output_errors_independent s (s.errors ++ [.malformedGroupSequence]) n2).1
  · rw [hstep]
    exact (handle_output_errors_independent s (s.errors ++ [.malformedGroupSequence]) n2).2

/-- Concrete instance: an unmatched End from the initial state only logs
the error, and a following plain line is still rendered normally. -/
theorem handle_output_end_empty_witness :
    handle_output ConsoleState.initial ⟨"stray", some .End, none⟩
      = ⟨[], [], [.malformedGroupSequence]⟩ ∧
    (handle_output (handle_output ConsoleState.initial ⟨"stray", some .End, none⟩)
        ⟨"next", none, none⟩).transcript = [⟨"next", 0, false⟩] := by
  have h := handle_output_end_empty ConsoleState.initial ⟨"stray", some .End, none⟩
    ⟨"next", none, none⟩ rfl rfl
  refine ⟨by simpa [ConsoleState.initial] using h.1, ?_⟩
  rw [h.2.2.2.2]
  decide

/-- Updating one frame of the frame map changes exactly the looked-up
value of that key. -/
theorem lookupFrames_updateFrames_self (l : List ((Nat × Nat) × FrameData))
    (key : Nat × Nat) (f : FrameData → FrameData) :
    lookupFrames (updateFrames l key f) key = (lookupFrames l key).map f := by
  induction l with
  | nil => rfl
  | cons p rest ih =>
    rcases p with ⟨k, fd⟩
    by_cases hk : k = key
    · simp [updateFrames, lookupFrames, hk]
    · simp [updateFrames, lookupFrames, hk, ih]

/-- Every variable row the walk emits carries has_children equal to
whether its container reference is non-zero. -/
theorem walkVars_has_children (fuel : Nat) :
    ∀ (expanded : List OpenEntry) (scope_id : Nat) (cache : Cache)
      (parent_ref depth : Nat) (v : Variable) (e : VariableTreeEntry),
      e ∈ walkVars fuel expanded scope_id cache parent_ref depth v →
      ∀ w p d hc, e = VariableTreeEntry.VariableEntry w p d hc →
        hc = (w.variables_reference != 0) := by
  induction fuel with
  | zero =>
    intro expanded scope_id cache parent_ref depth v e he w p d hc heq
    simp only [walkVars, List.mem_singleton] at he
    rw [he] at heq
    injection heq with hw hpp hdd hcc
    subst hw
    exact hcc.symm
  | succ fuel ih =>
    intro expanded scope_id cache parent_ref depth v e he w p d hc heq
    simp only [walkVars] at he
    rcases List.mem_cons.mp he with h1 | h2
    · rw [h1] at heq
      injection heq with hw hpp hdd hcc
      subst hw
      exact hcc.symm
    · cases hl : lookupCache cache v.variables_reference with
      | none =>
        rw [hl] at h2
        simp at h2
      | some kids =>
        rw [hl] at h2
        dsimp only at h2
        by_cases hm : OpenEntry.VariableRow scope_id v.name depth ∈ expanded
        · rw [if_pos hm] at h2
          rcases List.mem_flatMap.mp h2 with ⟨k, hk, hke⟩
          exact ih expanded scope_id cache v.variables_reference (depth + 1) k e hke
            w p d hc heq
        · rw [if_neg hm] at h2
          simp at h2

/-- C3 counterexample: on the exact data of test_evaluate_expression, the
walk the claim describes (scopes always followed by their cached children)
emits the cached child of Scope 2, while the program view the test asserts
(testObservedEntries, tests/console.rs) omits it — scope children are shown
only for scopes in the expanded set. -/
theorem entries_scope_children_counterexample :
    entries testScopes testExpanded testCache = testObservedEntries ∧
    entriesSpec testScopes testExpanded testCache
      = testObservedEntries ++ [.VariableEntry variable3 4 1 false] ∧
    lookupCache testCache 4 = some [variable3] ∧
    entries testScopes testExpanded testCache
      ≠ entriesSpec testScopes testExpanded testCache := by
  refine ⟨by decide, by decide, by decide, by decide⟩

/-- C3 (amended): entries() is the depth-first walk in which a scope emits
its row and then its cached children only when the scope row is expanded,
a variable row always carries has_children equal to (container_ref != 0),
and a variable's cached children are walked at depth + 1 exactly when its
key is in the expanded set and its children are present in the cache; on
the data of test_evaluate_expression the walk reproduces the entries the
test asserts. -/
theorem entries_walk_amended (scopes : List Scope) (expanded : List OpenEntry)
    (cache : Cache) (scope : Scope) (fuel scope_id parent_ref depth : Nat)
    (v : Variable) (kids : List Variable) :
    entries scopes expanded cache = scopes.flatMap (scopeEntries expanded cache) ∧
    (OpenEntry.ScopeRow scope.name ∈ expanded →
      scopeEntries expanded cache scope =
        VariableTreeEntry.ScopeEntry scope ::
          ((lookupCache cache scope.variables_reference).getD []).flatMap
            (fun w => walkVars (cache.length + 1) expanded scope.variables_reference
              cache scope.variables_reference 1 w)) ∧
    (OpenEntry.ScopeRow scope.name ∉ expanded →
      scopeEntries expanded cache scope = [VariableTreeEntry.ScopeEntry scope]) ∧
    (lookupCache cache v.variables_reference = some kids →
      OpenEntry.VariableRow scope_id v.name depth ∈ expanded →
      walkVars (fuel + 1) expanded scope_id cache parent_ref depth v =
        VariableTreeEntry.VariableEntry v parent_ref depth (v.variables_reference != 0) ::
          kids.flatMap (fun k => walkVars fuel expanded scope_id cache
            v.variables_reference (depth + 1) k)) ∧
    ((lookupCache cache v.variables_reference = none ∨
        OpenEntry.VariableRow scope_id v.name depth ∉ expanded) →
      walkVars (fuel + 1) expanded scope_id cache parent_ref depth v =
        [VariableTreeEntry.VariableEntry v parent_ref depth (v.variables_reference != 0)]) ∧
    (∀ e ∈ walkVars fuel expanded scope_id cache parent_ref depth v,
      ∀ w p d hc, e = VariableTreeEntry.VariableEntry w p d hc →
        hc = (w.variables_reference != 0)) ∧
    entries testScopes testExpanded testCache = testObservedEntries := by
  refine ⟨rfl, ?_, ?_, ?_, ?_, ?_, by decide⟩
  · intro h
    simp [scopeEntries, h]
  · intro h
    simp [scopeEntries, h]
  · intro hl hm
    simp only [walkVars, hl, if_pos hm]
  · intro h
    rcases h with hl | hm
    · simp only [walkVars, hl]
    · simp only [walkVars]
      cases hl : lookupCache cache v.variables_reference with
      | none => rfl
      | some kids2 =>
        dsimp only
        rw [if_neg hm]
  · intro e he w p d hc heq
    exact walkVars_has_children fuel expanded scope_id cache parent_ref depth v e
      he w p d hc heq

/-- Concrete instances of the amended walk at the test data: the collapsed
scope block and the expanded variable block compute as the law states. -/
theorem entries_walk_amended_witness :
    scopeEntries testExpanded testCache ⟨"Scope 2", 4, false⟩
      = [VariableTreeEntry.ScopeEntry ⟨"Scope 2", 4, false⟩] ∧
    walkVars 4 testExpanded 2 testCache 2 1 variable1 =
      VariableTreeEntry.VariableEntry variable1 2 1 true ::
        [nested1, nested2].flatMap
          (fun k => walkVars 3 testExpanded 2 testCache 3 2 k) := by
  have h := entries_walk_amended testScopes testExpanded testCache
    ⟨"Scope 2", 4, false⟩ 3 2 2 1 variable1 [nested1, nested2]
  refine ⟨h.2.2.1 (by decide), ?_⟩
  have h2 := h.2.2.2.1 (by decide) (by decide)
  simpa [variable1] using h2

/-- Collapsing an expanded row removes it from the expanded set and changes
nothing else. -/
theorem toggle_entry_collapse (s : VariableListState) (thread_id frame_id : Nat)
    (entry : OpenEntry) (ref : Nat) (fd : FrameData)
    (hf : lookupFrames s.frames (thread_id, frame_id) = some fd)
    (he : entry ∈ fd.expanded) :
    toggle_entry s thread_id frame_id entry ref =
      { s with
        frames := updateFrames s.frames (thread_id, frame_id)
          (fun d => { d with expanded := d.expanded.erase entry }) } := by
  unfold toggle_entry
  rw [hf]
  simp [he]

/-- Expanding a collapsed row whose children are cached adds it to the
expanded set and issues no request. -/
theorem toggle_entry_expand_cached (s : VariableListState) (thread_id frame_id : Nat)
    (entry : OpenEntry) (ref : Nat) (fd : FrameData) (children : List Variable)
    (hf : lookupFrames s.frames (thread_id, frame_id) = some fd)
    (he : entry ∉ fd.expanded)
    (hc : lookupCache fd.cache ref = some children) :
    toggle_entry s thread_id frame_id entry ref =
      { s with
        frames := updateFrames s.frames (thread_id, frame_id)
          (fun d => { d with expanded := entry :: d.expanded }) } := by
  unfold toggle_entry
  rw [hf]
  simp [he, hc]

/-- C7: collapsing a previously fetched, expanded variable row and then
toggling it again issues no Variables request at either step and leaves the
cached child list of the row byte-identical. -/
theorem toggle_entry_round_trip (s : VariableListState) (tid fid : Nat)
    (entry : OpenEntry) (ref : Nat) (fd : FrameData) (children : List Variable)
    (hf : lookupFrames s.frames (tid, fid) = some fd)
    (he : entry ∈ fd.expanded)
    (hc : lookupCache fd.cache ref = some children) :
    (toggle_entry s tid fid entry ref).varRequests = s.varRequests ∧
    (toggle_entry (toggle_entry s tid fid entry ref) tid fid entry ref).varRequests
      = s.varRequests ∧
    ∃ fd2,
      lookupFrames
          (toggle_entry (toggle_entry s tid fid entry ref) tid fid entry ref).frames
          (tid, fid) = some fd2 ∧
      fd2.cache = fd.cache ∧
      lookupCache fd2.cache ref = some children := by
  have h1 := toggle_entry_collapse s tid fid entry ref fd hf he
  have hlf1 : lookupFrames (toggle_entry s tid fid entry ref).frames (tid, fid)
      = some { fd with expanded := fd.expanded.erase entry } := by
    rw [h1]
    show lookupFrames (updateFrames s.frames (tid, fid) _) (tid, fid) = _
    rw [lookupFrames_updateFrames_self, hf]
    rfl
  by_cases he2 : entry ∈ fd.expanded.erase entry
  · have h2 := toggle_entry_collapse (toggle_entry s tid fid entry ref) tid fid entry ref
      { fd with expanded := fd.expanded.erase entry } hlf1 he2
    have hlf2 : lookupFrames
        (toggle_entry (toggle_entry s tid fid entry ref) tid fid entry ref).frames
        (tid, fid) = some { fd with expanded := (fd.expanded.erase entry).erase entry } := by
      rw [h2]
      show lookupFrames (updateFrames _ (tid, fid) _) (tid, fid) = _
      rw [lookupFrames_updateFrames_self, hlf1]
      rfl
    exact ⟨by rw [h1], by rw [h2, h1], ⟨_, hlf2, rfl, hc⟩⟩
  · have h2 := toggle_entry_expand_cached (toggle_entry s tid fid entry ref) tid fid entry
      ref { fd with expanded := fd.expanded.erase entry } children hlf1 he2 hc
    have hlf2 : lookupFrames
        (toggle_entry (toggle_entry s tid fid entry ref) tid fid entry ref).frames
        (tid, fid)
        = some { fd with expanded := entry :: fd.expanded.erase entry } := by
      rw [h2]
      show lookupFrames (updateFrames _ (tid, fid) _) (tid, fid) = _
      rw [lookupFrames_updateFrames_self, hlf1]
      rfl
    exact ⟨by rw [h1], by rw [h2, h1], ⟨_, hlf2, rfl, hc⟩⟩

/-- Concrete instance on the test fixture: collapsing and re-toggling the
variable1 row issues no request and keeps its cached children. -/
theorem toggle_entry_round_trip_witness :
    (toggle_entry (toggle_entry testVariableListState 1 1 (.VariableRow 2 "variable1" 1) 3)
        1 1 (.VariableRow 2 "variable1" 1) 3).varRequests = [] ∧
    ∃ fd2,
      lookupFrames
          (toggle_entry (toggle_entry testVariableListState 1 1 (.VariableRow 2 "variable1" 1) 3)
            1 1 (.VariableRow 2 "variable1" 1) 3).frames (1, 1) = some fd2 ∧
      fd2.cache = testCache ∧
      lookupCache fd2.cache 3 = some [nested1, nested2] := by
  have h := toggle_entry_round_trip testVariableListState 1 1 (.VariableRow 2 "variable1" 1) 3
    ⟨testScopes, testExpanded, testCache⟩ [nested1, nested2] rfl (by decide) (by decide)
  exact ⟨h.2.1, h.2.2⟩

/-- C6: after a second on_stopped, no cached frame data survives, a
Scopes or Variables response tagged with the first stop generation is
discarded, and no response or toggle ever changes the generation — so the
first stop generation can never again match. -/
theorem on_stopped_invalidation (s u : VariableListState) (tid tid2 fid ref : Nat)
    (scopes : List Scope) (vars : List Variable)
    (hgen : u.generation = (on_stopped s tid).generation) :
    (on_stopped u tid).frames = [] ∧
    applyScopesResponse (on_stopped u tid) (on_stopped s tid).generation tid2 fid scopes
      = on_stopped u tid ∧
    applyVariablesResponse (on_stopped u tid) (on_stopped s tid).generation tid2 fid ref vars
      = on_stopped u tid ∧
    (∀ gen t f sc, (applyScopesResponse u gen t f sc).generation = u.generation) ∧
    (∀ gen t f r vs, (applyVariablesResponse u gen t f r vs).generation = u.generation) ∧
    (∀ t f e r, (toggle_entry u t f e r).generation = u.generation) := by
  have hne : (on_stopped s tid).generation ≠ (on_stopped u tid).generation := by
    simp only [on_stopped] at hgen ⊢
    omega
  refine ⟨rfl, ?_, ?_, ?_, ?_, ?_⟩
  · unfold applyScopesResponse
    rw [if_neg hne]
  · unfold applyVariablesResponse
    rw [if_neg hne]
  · intro gen t f sc
    unfold applyScopesResponse
    by_cases h : gen = u.generation <;> simp [h]
  · intro gen t f r vs
    unfold applyVariablesResponse
    by_cases h : gen = u.generation <;> simp [h]
  · intro t f e r
    unfold toggle_entry
    cases hlf : lookupFrames u.frames (t, f) with
    | none => rfl
    | some fd =>
      by_cases hexp : e ∈ fd.expanded
      · simp [hexp]
      · cases hcc : lookupCache fd.cache r <;> simp [hexp, hcc]

/-- Concrete instance: stopping twice from a fresh state wipes the frame
of the test fixture and a first-generation Variables response bounces off
the second-generation state. -/
theorem on_stopped_invalidation_witness :
    (on_stopped testVariableListState 1).frames = [] ∧
    applyVariablesResponse (on_stopped testVariableListState 1) 1 1 1 2 [variable1]
      = on_stopped testVariableListState 1 := by
  have h := on_stopped_invalidation ⟨0, [], []⟩ testVariableListState 1 1 1 2 [] [variable1] rfl
  exact ⟨h.1, h.2.2.1⟩

/-- patchVars overwrites exactly the value of the first variable with the
given name and preserves the length of the list. -/
theorem patchVars_findVar (name result : String) :
    ∀ (vs : List Variable),
      (∀ v, findVar vs name = some v →
        findVar (patchVars vs name result) name = some { v with value := result }) ∧
      (patchVars vs name result).length = vs.length := by
  intro vs
  induction vs with
  | nil => exact ⟨fun v h => by simp [findVar] at h, rfl⟩
  | cons w rest ih =>
    constructor
    · intro v h
      by_cases hw : w.name = name
      · rw [findVar, if_pos hw] at h
        injection h with h
        subst h
        simp [patchVars, findVar, hw]
      · rw [findVar, if_neg hw] at h
        have h2 := ih.1 v h
        simp [patchVars, findVar, hw, h2]
    · by_cases hw : w.name = name <;> simp [patchVars, hw, ih.2]

/-- C2: an evaluate call whose expression parses as an assignment issues
its request with context "variables", appends exactly one TranscriptLine
holding the result text, issues no Variables request, and replaces the
frame cache by the patched cache of the matched container; patching
overwrites in place the value of the first variable with the parsed name
and keeps the list length. -/
theorem evaluate_assignment (con : ConsoleState) (vls : VariableListState)
    (tid fid : Nat) (expr result name rhs : String)
    (hp : parseAssignment expr = some (name, rhs)) :
    (evaluate con vls tid fid expr result).2.2 = ⟨expr, fid, "variables"⟩ ∧
    (evaluate con vls tid fid expr result).2.1.varRequests = vls.varRequests ∧
    (evaluate con vls tid fid expr result).1.transcript
      = con.transcript ++ [⟨result, 0, false⟩] ∧
    (∀ fd cref, lookupFrames vls.frames (tid, fid) = some fd →
      findTargetScope fd.scopes fd.cache name = some cref →
      lookupFrames (evaluate con vls tid fid expr result).2.1.frames (tid, fid)
        = some { fd with cache := patchCache fd.cache cref name result }) ∧
    (∀ (vs : List Variable) (v : Variable), findVar vs name = some v →
      findVar (patchVars vs name result) name = some { v with value := result }) ∧
    (∀ vs : List Variable, (patchVars vs name result).length = vs.length) := by
  have hev : evaluate con vls tid fid expr result =
      ({ con with transcript := con.transcript ++ [⟨result, 0, false⟩] },
       (match lookupFrames vls.frames (tid, fid) with
        | none => vls
        | some fd =>
          match findTargetScope fd.scopes fd.cache name with
          | none => vls
          | some ref => patch_variable vls tid fid ref name result),
       ⟨expr, fid, "variables"⟩) := by
    unfold evaluate
    rw [hp]
  refine ⟨by rw [hev], ?_, by rw [hev], ?_,
    fun vs v h => (patchVars_findVar name result vs).1 v h,
    fun vs => (patchVars_findVar name result vs).2⟩
  · rw [hev]
    cases hlf : lookupFrames vls.frames (tid, fid) with
    | none => rfl
    | some fd =>
      dsimp only
      cases hft : findTargetScope fd.scopes fd.cache name with
      | none => rfl
      | some cref => rfl
  · intro fd cref hlf hft
    rw [hev]
    show lookupFrames
        (match lookupFrames vls.frames (tid, fid) with
         | none => vls
         | some fd =>
           match findTargetScope fd.scopes fd.cache name with
           | none => vls
           | some ref => patch_variable vls tid fid ref name result).frames (tid, fid) = _
    rw [hlf]
    dsimp only
    rw [hft]
    dsimp only
    unfold patch_variable
    show lookupFrames (updateFrames vls.frames (tid, fid) _) (tid, fid) = _
    rw [lookupFrames_updateFrames_self, hlf]
    rfl

/-- Concrete instance, the scenario of spec section 8 property 7: on the
test fixture, evaluating an assignment to variable1 with result 5 uses the
variables context, appends exactly the result line, issues no Variables
request and overwrites the cached value of variable1 in container 2. -/
theorem evaluate_assignment_witness :
    (evaluate ConsoleState.initial testVariableListState 1 1 "$variable1 = 5" "5").2.2
      = ⟨"$variable1 = 5", 1, "variables"⟩ ∧
    (evaluate ConsoleState.initial testVariableListState 1 1 "$variable1 = 5" "5").2.1.varRequests
      = [] ∧
    (evaluate ConsoleState.initial testVariableListState 1 1 "$variable1 = 5" "5").1.transcript
      = [⟨"5", 0, false⟩] ∧
    lookupFrames
        (evaluate ConsoleState.initial testVariableListState 1 1 "$variable1 = 5" "5").2.1.frames
        (1, 1)
      = some ⟨testScopes, testExpanded,
          [(2, [⟨"variable1", "5", 3⟩, variable2]),
           (3, [nested1, nested2]), (4, [variable3])]⟩ := by
  have h := evaluate_assignment ConsoleState.initial testVariableListState 1 1
    "$variable1 = 5" "5" "variable1" "5" (by decide)
  refine ⟨h.1, h.2.1, by simpa using h.2.2.1, ?_⟩
  have h4 := h.2.2.2.1 ⟨testScopes, testExpanded, testCache⟩ 2 rfl (by decide)
  rw [h4]
  decide

/-- A single handle_output step either leaves the transcript unchanged or
appends exactly one line carrying the text of the notification. -/
theorem handle_output_transcript_cases (s : ConsoleState) (n : OutputEvent) :
    (handle_output s n).transcript = s.transcript ∨
    ∃ d h, (handle_output s n).transcript = s.transcript ++ [⟨n.output, d, h⟩] := by
  rcases n with ⟨text, g, cat⟩
  unfold handle_output
  match g with
  | none =>
    by_cases hs : topSuppressed s.stack
    · exact Or.inl (by simp [hs])
    · exact Or.inr ⟨s.stack.length, false, by simp [hs]⟩
  | some .Start =>
    by_cases hs : topSuppressed s.stack
    · exact Or.inl (by simp [hs])
    · exact Or.inr ⟨s.stack.length, false, by simp [hs]⟩
  | some .StartCollapsed => exact Or.inl (by simp)
  | some .End =>
    cases hst : s.stack with
    | nil => exact Or.inl (by simp)
    | cons f rest => exact Or.inr ⟨rest.length, f.collapsed, by simp⟩

/-- A session step never rewrites transcript history. -/
theorem sessionStep_transcript_extends (s : SessionState) (ev : DapEvent) :
    ∃ t, (sessionStep s ev).console.transcript = s.console.transcript ++ t := by
  cases ev with
  | Output n =>
    by_cases ht : s.terminated
    · exact ⟨[], by simp [sessionStep, ht]⟩
    · rcases handle_output_transcript_cases s.console n with h | ⟨d, hh, hq⟩
      · exact ⟨[], by simpa [sessionStep, ht] using h⟩
      · exact ⟨[⟨n.output, d, hh⟩], by simpa [sessionStep, ht] using hq⟩
  | Stopped tid => exact ⟨[], by by_cases ht : s.terminated <;> simp [sessionStep, ht]⟩
  | Continued tid => exact ⟨[], by by_cases ht : s.terminated <;> simp [sessionStep, ht]⟩
  | Terminated => exact ⟨[], by simp [sessionStep]⟩

/-- C8: the transcript is append-only under every session event — an
Output notification appends at most one line, carrying that notification
text; Stopped, Continued and Terminated never touch the transcript; any
event sequence only ever extends the transcript; and an evaluate result
appends exactly one line and edits no history. -/
theorem session_transcript_append_only :
    (∀ (s : SessionState) (ev : DapEvent), ∃ t,
      (sessionStep s ev).console.transcript = s.console.transcript ++ t) ∧
    (∀ (s : SessionState) (n : OutputEvent),
      (sessionStep s (.Output n)).console.transcript = s.console.transcript ∨
      ∃ d h, (sessionStep s (.Output n)).console.transcript
        = s.console.transcript ++ [⟨n.output, d, h⟩]) ∧
    (∀ (s : SessionState) (tid : Nat),
      (sessionStep s (.Stopped tid)).console.transcript = s.console.transcript ∧
      (sessionStep s (.Continued tid)).console.transcript = s.console.transcript) ∧
    (∀ s : SessionState, (sessionStep s .Terminated).console.transcript
      = s.console.transcript) ∧
    (∀ (evs : List DapEvent) (s : SessionState), ∃ t,
      (evs.foldl sessionStep s).console.transcript = s.console.transcript ++ t) ∧
    (∀ (con : ConsoleState) (vls : VariableListState) (tid fid : Nat)
      (expr result : String),
      (evaluate con vls tid fid expr result).1.transcript
        = con.transcript ++ [⟨result, 0, false⟩]) := by
  refine ⟨sessionStep_transcript_extends, ?_, ?_, ?_, ?_, ?_⟩
  · intro s n
    by_cases ht : s.terminated
    · exact Or.inl (by simp [sessionStep, ht])
    · rcases handle_output_transcript_cases s.console n with h | ⟨d, hh, hq⟩
      · exact Or.inl (by simpa [sessionStep, ht] using h)
      · exact Or.inr ⟨d, hh, by simpa [sessionStep, ht] using hq⟩
  · intro s tid
    constructor <;> (by_cases ht : s.terminated <;> simp [sessionStep, ht])
  · intro s
    simp [sessionStep]
  · intro evs
    induction evs with
    | nil => intro s; exact ⟨[], by simp⟩
    | cons ev rest ih =>
      intro s
      rcases sessionStep_transcript_extends s ev with ⟨t1, h1⟩
      rcases ih (sessionStep s ev) with ⟨t2, h2⟩
      exact ⟨t1 ++ t2, by rw [List.foldl_cons, h2, h1, List.append_assoc]⟩
  · intro con vls tid fid expr result
    unfold evaluate
    cases hp : parseAssignment expr with
    | none => rfl
    | some p =>
      rcases p with ⟨name2, rhs2⟩
      rfl

end ZedDebugger

namespace ZedTask

/-- C10: attach_config returns Some exactly on the Attach variant, with
exactly the contained AttachConfig, and returns None on Launch. -/
theorem attach_config_spec :
    (∀ (r : DebugRequestType) (cfg : AttachConfig),
      r.attach_config = some cfg ↔ r = .Attach cfg) ∧
    DebugRequestType.Launch.attach_config = none := by
  constructor
  · intro r cfg
    cases r with
    | Launch => simp [DebugRequestType.attach_config]
    | Attach c => simp [DebugRequestType.attach_config]
  · rfl

end ZedTask
